import Mathlib

/-!
Verification of the Covalent workflow-orchestration repository against its
natural-language specification.

The repository's own files under verification here are the stress-test
script `tests/stress_tests/scripts/parallel_cpumem.py` (its pure helper
functions are embedded directly) and the dispatch-engine behaviour the
specification describes.  The dispatch engine itself (`covalent` /
`covalent_dispatcher`) is not among the provided source files — only its
caller, the stress script, is — so the engine is modelled from the
specification's words; every such definition carries a doc comment saying
so.
-/

namespace Covalent

/-! ## Embedding of `parallel_cpumem.py` helper functions -/

/-- The loop body of `test_prime`:
`for d in range(2, m + 1): if n % d == 0: return False` followed by
`return True`, with the iteration sequence made explicit as a list. -/
def test_prime_loop (n : Nat) : List Nat → Bool
  | [] => true
  | d :: ds => if n % d == 0 then false else test_prime_loop n ds

/-- `test_prime(n)` from `parallel_cpumem.py`:
`m = int(math.floor(math.sqrt(n)))`, then trial division by
`d in range(2, m + 1)`.  `math.floor(math.sqrt(n))` is the integer square
root `Nat.sqrt n` (exact for every `n` the script uses).  `range(2, m+1)`
is the list `[2, …, m]`, i.e. `List.range' 2 (m + 1 - 2)`. -/
def test_prime (n : Nat) : Bool :=
  test_prime_loop n (List.range' 2 (Nat.sqrt n + 1 - 2))

/-- `sample_cpu_task(*args, **kwargs)` from `parallel_cpumem.py`:
ignores its arguments; `res = []; for i in range(2, 1000000):
res.append(test_prime(i)); return res`. -/
def sample_cpu_task (args : List Nat) (kwargs : List (String × Nat)) :
    List Bool :=
  (List.range' 2 (1000000 - 2)).foldl (fun res i => res ++ [test_prime i]) []

/-- `sample_task(*args, **kwargs)` from `parallel_cpumem.py`: returns 1. -/
def sample_task (args : List Nat) (kwargs : List (String × Nat)) : Nat := 1

theorem test_prime_loop_eq_true_iff (n : Nat) (l : List Nat) :
    test_prime_loop n l = true ↔ ∀ d ∈ l, n % d ≠ 0 := by
  induction l with
  | nil => simp [test_prime_loop]
  | cons d ds ih =>
    by_cases h : n % d = 0
    · simp [test_prime_loop, h]
    · simp [test_prime_loop, h, ih]

theorem test_prime_eq_true_iff (n : Nat) :
    test_prime n = true ↔ ∀ d, 2 ≤ d → d ≤ Nat.sqrt n → ¬ d ∣ n := by
  rw [test_prime, test_prime_loop_eq_true_iff]
  constructor
  · intro hall d h2 hle hdvd
    have hmem : d ∈ List.range' 2 (Nat.sqrt n + 1 - 2) := by
      rw [List.mem_range'_1]
      omega
    exact hall d hmem (Nat.mod_eq_zero_of_dvd hdvd)
  · intro hall d hmem hmod
    rw [List.mem_range'_1] at hmem
    exact hall d hmem.1 (by omega) (Nat.dvd_of_mod_eq_zero hmod)

theorem sample_cpu_task_foldl (l : List Nat) (acc : List Bool) :
    l.foldl (fun res i => res ++ [test_prime i]) acc = acc ++ l.map test_prime := by
  induction l generalizing acc with
  | nil => simp
  | cons i l ih => simp [List.foldl_cons, ih]

/-- C8: for every `n ≥ 2`, `test_prime n` returns `true` iff `n` is prime
(trial division up to `⌊√n⌋` finds no divisor), and on the edge inputs
`n = 0` and `n = 1` it returns `true` although neither is prime. -/
theorem test_prime_correct :
    (∀ n, 2 ≤ n → (test_prime n = true ↔ Nat.Prime n)) ∧
      (test_prime 0 = true ∧ ¬ Nat.Prime 0) ∧
      (test_prime 1 = true ∧ ¬ Nat.Prime 1) := by
  refine ⟨fun n h2 => ?_, ⟨by decide, Nat.not_prime_zero⟩,
    ⟨by decide, Nat.not_prime_one⟩⟩
  rw [test_prime_eq_true_iff, Nat.prime_def_le_sqrt]
  exact ⟨fun h => ⟨h2, h⟩, And.right⟩

/-- C10: `sample_cpu_task` ignores its positional and keyword arguments and
returns the list of primality flags of `2, …, 999999`, of length `999998`. -/
theorem sample_cpu_task_correct (args : List Nat)
    (kwargs : List (String × Nat)) :
    sample_cpu_task args kwargs = (List.range' 2 999998).map test_prime ∧
      (sample_cpu_task args kwargs).length = 999998 := by
  have h : sample_cpu_task args kwargs = (List.range' 2 999998).map test_prime := by
    rw [sample_cpu_task, sample_cpu_task_foldl]
    simp
  exact ⟨h, by rw [h, List.length_map, List.length_range']⟩

/-! ## Embedding of `feedforward_workflow` from `parallel_cpumem.py`

`ct.electron(task)(*args)` records one node of the transport graph under
construction and hands back a handle to it; the workflow body never calls
the task itself.  A node records the wrapped task and the handles passed as
arguments; a handle is the node's index in the graph, in creation order.
Python list indexing that can go out of range (`predecessors[i - 1]`,
`predecessors[i - 1][j]`, `electrons[i - 1][k]`, `tasks[0]`) is embedded as
`Except`-valued lookup raising `IndexError`. -/

/-- One node of the transport graph recorded by `ct.electron(task)(*args)`:
the wrapped task and the handles of the electrons passed as arguments. -/
structure ElectronNode (α : Type) where
  task : α
  argNodes : List Nat
deriving DecidableEq

/-- `ct.electron(t)(*args)` during graph construction: appends a node and
returns the new graph together with the node's handle. -/
def electron {α : Type} (st : List (ElectronNode α)) (t : α)
    (args : List Nat) : List (ElectronNode α) × Nat :=
  (st ++ [⟨t, args⟩], st.length)

/-- Python list indexing `xs[k]`: `IndexError` when `k` is out of range. -/
def pyIndex {β : Type} (xs : List β) (k : Nat) : Except String β :=
  match xs.get? k with
  | some x => Except.ok x
  | none => Except.error ("IndexError")

/-- `[ct.electron(tasks[0][j])() for j in range(len(tasks[0]))]`:
the first layer of electrons, each created with no arguments. -/
def buildLayer0 {α : Type} (st : List (ElectronNode α)) :
    List α → List (ElectronNode α) × List Nat
  | [] => (st, [])
  | t :: ts =>
    let p1 := electron st t []
    let p2 := buildLayer0 p1.1 ts
    (p2.1, p1.2 :: p2.2)

/-- `args = [electrons[i - 1][k] for k in predecessors[i - 1][j]]`:
looks each predecessor index up in the previous layer's handles. -/
def gatherArgs (prev : List Nat) : List Nat → Except String (List Nat)
  | [] => Except.ok []
  | k :: ks =>
    match pyIndex prev k with
    | Except.error e => Except.error e
    | Except.ok e =>
      match gatherArgs prev ks with
      | Except.error msg => Except.error msg
      | Except.ok es => Except.ok (e :: es)

/-- The inner loop `for j in range(len(tasks[i]))`: walks the layer's tasks
in lockstep with that layer's predecessor lists (`predecessors[i - 1][j]`
raises `IndexError` once `j` outruns `predecessors[i - 1]`), creating one
electron per task. -/
def buildLayer {α : Type} (st : List (ElectronNode α)) (prev : List Nat) :
    List α → List (List Nat) → Except String (List (ElectronNode α) × List Nat)
  | [], _ => Except.ok (st, [])
  | _ :: _, [] => Except.error ("IndexError")
  | t :: ts, plist :: prest =>
    match gatherArgs prev plist with
    | Except.error e => Except.error e
    | Except.ok args =>
      let p1 := electron st t args
      match buildLayer p1.1 prev ts prest with
      | Except.error e => Except.error e
      | Except.ok rest => Except.ok (rest.1, p1.2 :: rest.2)

/-- The outer loop `for i in range(1, len(tasks))`: walks the remaining
layers in lockstep with `predecessors` (`predecessors[i - 1]` raises
`IndexError` once the layers outrun it); `prev` is `electrons[i - 1]`, the
only layer of `electrons` the body reads. -/
def buildLayers {α : Type} (st : List (ElectronNode α)) (prev : List Nat) :
    List (List α) → List (List (List Nat)) → Except String (List (ElectronNode α))
  | [], _ => Except.ok st
  | _ :: _, [] => Except.error ("IndexError")
  | layer :: rest, pl :: preds =>
    match buildLayer st prev layer pl with
    | Except.error e => Except.error e
    | Except.ok built => buildLayers built.1 built.2 rest preds

/-- `feedforward_workflow(tasks, predecessors)` from `parallel_cpumem.py`:
builds the first electron layer from `tasks[0]`, then every later layer
with the arguments named by `predecessors`, and returns the constant `1`. -/
def feedforward_workflow {α : Type} (tasks : List (List α))
    (predecessors : List (List (List Nat))) : Except String Nat :=
  match pyIndex tasks 0 with
  | Except.error e => Except.error e
  | Except.ok first =>
    let p0 := buildLayer0 ([] : List (ElectronNode α)) first
    match buildLayers p0.1 p0.2 tasks.tail predecessors with
    | Except.error e => Except.error e
    | Except.ok _ => Except.ok 1

/-- Well-formedness of a `tasks`/`predecessors` pair for the layers after
the first, relative to the length of the previous layer: each layer has a
predecessor list per task and each predecessor index names an existing task
of the previous layer. -/
def ffWellFormed (prevLen : Nat) :
    List (List α) → List (List (List Nat)) → Bool
  | [], _ => true
  | _ :: _, [] => false
  | layer :: rest, pl :: preds =>
    decide (layer.length ≤ pl.length) &&
      (pl.take layer.length).all (fun plist =>
        plist.all (fun k => decide (k < prevLen))) &&
      ffWellFormed layer.length rest preds

theorem buildLayer0_snd_length {α : Type} (st : List (ElectronNode α))
    (ts : List α) : (buildLayer0 st ts).2.length = ts.length := by
  induction ts generalizing st with
  | nil => rfl
  | cons t ts ih => simp [buildLayer0, ih]

theorem gatherArgs_ok (prev : List Nat) (plist : List Nat)
    (h : ∀ k ∈ plist, k < prev.length) :
    ∃ as, gatherArgs prev plist = Except.ok as := by
  induction plist with
  | nil => exact ⟨[], rfl⟩
  | cons k ks ih =>
    have hk : k < prev.length := h k (by simp)
    obtain ⟨as, has⟩ := ih (fun q hq => h q (by simp [hq]))
    refine ⟨prev.get ⟨k, hk⟩ :: as, ?_⟩
    simp [gatherArgs, pyIndex, List.get?_eq_get hk, List.getElem?_eq_getElem hk,
      has, List.get_eq_getElem]

theorem buildLayer_ok {α : Type} (layer : List α) :
    ∀ (preds : List (List Nat)) (st : List (ElectronNode α)) (prev : List Nat),
      layer.length ≤ preds.length →
      (∀ plist ∈ preds.take layer.length, ∀ k ∈ plist, k < prev.length) →
      ∃ st' es, buildLayer st prev layer preds = Except.ok (st', es) ∧
        es.length = layer.length := by
  induction layer with
  | nil => intro preds st prev _ _; exact ⟨st, [], rfl, rfl⟩
  | cons t ts ih =>
    intro preds st prev hlen hval
    match preds with
    | [] => simp at hlen
    | plist :: prest =>
      obtain ⟨as, has⟩ := gatherArgs_ok prev plist
        (hval plist (by simp [List.take_succ_cons]))
      obtain ⟨st', es, hb, hes⟩ := ih prest (electron st t as).1 prev
        (by simpa using hlen)
        (fun q hq => hval q (by simp [List.take_succ_cons, hq]))
      refine ⟨st', (electron st t as).2 :: es, ?_, by simp [hes]⟩
      simp [buildLayer, has, hb]

theorem buildLayers_ok {α : Type} (layers : List (List α)) :
    ∀ (preds : List (List (List Nat))) (st : List (ElectronNode α))
      (prev : List Nat),
      ffWellFormed prev.length layers preds = true →
      ∃ st', buildLayers st prev layers preds = Except.ok st' := by
  induction layers with
  | nil => intro preds st prev _; exact ⟨st, rfl⟩
  | cons layer rest ih =>
    intro preds st prev hwf
    match preds with
    | [] => simp [ffWellFormed] at hwf
    | pl :: preds' =>
      simp only [ffWellFormed, Bool.and_eq_true, decide_eq_true_eq,
        List.all_eq_true] at hwf
      obtain ⟨⟨hlen, hval⟩, hrest⟩ := hwf
      obtain ⟨st', es, hb, hes⟩ := buildLayer_ok layer pl st prev hlen
        (fun plist hp k hk => by
          have := hval plist hp k hk
          simpa using this)
      obtain ⟨stF, hF⟩ := ih preds' st' es (by rw [hes]; exact hrest)
      exact ⟨stF, by simp [buildLayers, hb, hF]⟩

/-- C9: for every well-formed `tasks`/`predecessors` input (each predecessor
index naming an existing task of the previous layer, with a predecessor
list available for every task after the first layer), `feedforward_workflow`
returns the constant `1`, independently of the tasks themselves. -/
theorem feedforward_workflow_returns_one {α : Type} (tasks : List (List α))
    (predecessors : List (List (List Nat)))
    (hne : tasks ≠ [])
    (hwf : ffWellFormed (tasks.headD []).length tasks.tail predecessors = true) :
    feedforward_workflow tasks predecessors = Except.ok 1 := by
  match tasks with
  | [] => exact absurd rfl hne
  | first :: rest =>
    obtain ⟨stF, hF⟩ := buildLayers_ok rest predecessors
      (buildLayer0 ([] : List (ElectronNode α)) first).1
      (buildLayer0 ([] : List (ElectronNode α)) first).2
      (by rw [buildLayer0_snd_length]; simpa using hwf)
    simp [feedforward_workflow, pyIndex, hF]

/-- Closed instance of C9 at the docstring's example shape: three layers of
two tasks each with the documented predecessor lists. -/
theorem feedforward_workflow_returns_one_witness :
    feedforward_workflow [[10, 20], [30, 40], [50, 60]]
      [[[0, 1], [0]], [[1], [1]]] = Except.ok 1 :=
  feedforward_workflow_returns_one [[10, 20], [30, 40], [50, 60]]
    [[[0, 1], [0]], [[1], [1]]] (by decide) (by decide)

/-! ## Spec-modelled dispatch engine

The dispatch engine (`covalent` / `covalent_dispatcher`) is not among the
provided source files; the definitions below are modelled from the
specification (§3–§6) and each doc comment names the part of the engine it
models. -/

/-- Modelled from the spec: §4.3 per-task lifecycle states
`PENDING → RUNNING → {COMPLETED, FAILED}` with `RETRYING` while attempts
remain and `CANCELLED` on cancellation. -/
inductive TaskStatus
  | PENDING
  | RUNNING
  | RETRYING
  | COMPLETED
  | FAILED
  | CANCELLED
deriving DecidableEq

/-- Modelled from the spec: §4.3 — COMPLETED, FAILED and CANCELLED are the
terminal task statuses. -/
def TaskStatus.isTerminal : TaskStatus → Bool
  | TaskStatus.COMPLETED => true
  | TaskStatus.FAILED => true
  | TaskStatus.CANCELLED => true
  | _ => false

/-- Modelled from the spec: §4.3 workflow aggregate statuses. -/
inductive WorkflowStatus
  | RUNNING
  | COMPLETED
  | FAILED
  | CANCELLED
deriving DecidableEq

/-- Modelled from the spec: §4.1/§7 `GraphError` (Cycle, UnknownReference),
raised at submission, never during execution. -/
inductive GraphError
  | Cycle
  | UnknownReference
deriving DecidableEq

/-- Modelled from the spec: §3 TaskNode — identity is the node's index in
the graph's node list, `deps` the upstream dependency identities,
`maxAttempts` the retry policy's attempt budget. The callable unit and the
executor selector are opaque to the engine and omitted. -/
structure TaskNode where
  deps : List Nat
  maxAttempts : Nat
deriving DecidableEq

/-- The node at index `i` (a node with no dependencies for an index outside
the graph, which therefore has no dependency edges). -/
def nodeAt (nodes : List TaskNode) (i : Nat) : TaskNode :=
  nodes.getD i ⟨[], 1⟩

def depsOf (nodes : List TaskNode) (i : Nat) : List Nat :=
  (nodeAt nodes i).deps

/-- Modelled from the spec: §3/§4.1 — every dependency identity referenced
by a node must exist in the same graph. -/
def validRefs (nodes : List TaskNode) : Bool :=
  nodes.all (fun nd => nd.deps.all (fun d => decide (d < nodes.length)))

/-- Modelled from the spec: §4.1 — one step of the topological attempt: the
first node not yet placed in the order all of whose dependencies are
already placed. -/
def kahnPick (nodes : List TaskNode) (placed : List Nat) : Option Nat :=
  (List.range nodes.length).find? (fun i =>
    !(placed.contains i) && (depsOf nodes i).all (fun d => placed.contains d))

/-- Modelled from the spec: §4.1 — the topological attempt's loop: keep
placing placeable nodes until none is left or the fuel runs out. -/
def kahnLoop (nodes : List TaskNode) : Nat → List Nat → List Nat
  | 0, placed => placed
  | fuel + 1, placed =>
    match kahnPick nodes placed with
    | none => placed
    | some i => kahnLoop nodes fuel (placed ++ [i])

/-- Modelled from the spec: §4.1 — the topological attempt; a full order
(of length `nodes.length`) certifies acyclicity, anything shorter signals
a cycle. -/
def topoOrder (nodes : List TaskNode) : List Nat :=
  kahnLoop nodes nodes.length []

/-- Modelled from the spec: §3 Graph — the ordered collection of task nodes
together with the topological order `build` produced for it. -/
structure Graph where
  nodes : List TaskNode
  order : List Nat
deriving DecidableEq

/-- Modelled from the spec: §4.1 `build(nodes, edges) -> Graph | GraphError`:
validates that every dependency reference names a node of the same graph
(`UnknownReference`) and that the topological attempt produces a full order
(failure signals a cycle, `Cycle`). Node identities are indices, so
duplicate identities cannot arise. Pure construction, no side effects. -/
def build (nodes : List TaskNode) : Except GraphError Graph :=
  if validRefs nodes then
    if (topoOrder nodes).length = nodes.length then
      Except.ok ⟨nodes, topoOrder nodes⟩
    else Except.error GraphError.Cycle
  else Except.error GraphError.UnknownReference

/-- A dependency path `i ⇝ j` of one or more edges, an edge going from a
node to one of its dependencies. -/
inductive DepPath (nodes : List TaskNode) : Nat → Nat → Prop
  | edge {i d : Nat} : d ∈ depsOf nodes i → DepPath nodes i d
  | cons {i d j : Nat} : d ∈ depsOf nodes i → DepPath nodes d j → DepPath nodes i j

/-- The graph has a cycle: a nonempty dependency path from a node to
itself. -/
def HasCycle (nodes : List TaskNode) : Prop := ∃ i, DepPath nodes i i

theorem DepPath.snoc {nodes : List TaskNode} {a b d : Nat}
    (hp : DepPath nodes a b) (hd : d ∈ depsOf nodes b) : DepPath nodes a d := by
  induction hp with
  | edge he => exact DepPath.cons he (DepPath.edge hd)
  | cons he _ ih => exact DepPath.cons he (ih hd)

theorem lt_of_mem_depsOf {nodes : List TaskNode} {i d : Nat}
    (hd : d ∈ depsOf nodes i) : i < nodes.length := by
  by_contra hge
  rw [depsOf, nodeAt, List.getD_eq_default _ _ (by omega)] at hd
  exact absurd hd (List.not_mem_nil d)

theorem DepPath.source_lt {nodes : List TaskNode} {i j : Nat}
    (hp : DepPath nodes i j) : i < nodes.length := by
  cases hp with
  | edge he => exact lt_of_mem_depsOf he
  | cons he _ => exact lt_of_mem_depsOf he

theorem kahnPick_not_cycle {nodes : List TaskNode} {placed : List Nat} {p : Nat}
    (hpick : kahnPick nodes placed = some p)
    (hinv : ∀ j, DepPath nodes j j → j ∉ placed) : ¬ DepPath nodes p p := by
  have hpred := List.find?_some hpick
  simp only [Bool.and_eq_true, Bool.not_eq_true', List.all_eq_true] at hpred
  obtain ⟨hnp, hdeps⟩ := hpred
  intro hcyc
  cases hcyc with
  | edge he =>
    have hmem := hdeps p he
    rw [List.elem_iff] at hmem
    rw [Bool.eq_false_iff] at hnp
    exact hnp (by rw [List.elem_iff]; exact hmem)
  | cons hd hp =>
    rename_i d
    have hdd : DepPath nodes d d := DepPath.snoc hp hd
    have hmem := hdeps d hd
    rw [List.elem_iff] at hmem
    exact hinv d hdd hmem

theorem kahnLoop_cycle_not_mem {nodes : List TaskNode} {c : Nat}
    (hc : DepPath nodes c c) :
    ∀ fuel placed, (∀ j, DepPath nodes j j → j ∉ placed) →
      c ∉ kahnLoop nodes fuel placed := by
  intro fuel
  induction fuel with
  | zero => intro placed hinv; exact hinv c hc
  | succ fuel ih =>
    intro placed hinv
    rw [kahnLoop]
    match hpick : kahnPick nodes placed with
    | none => exact hinv c hc
    | some p =>
      refine ih (placed ++ [p]) ?_
      intro j hj
      simp only [List.mem_append, List.mem_singleton]
      rintro (hjp | rfl)
      · exact hinv j hj hjp
      · exact kahnPick_not_cycle hpick hinv hj

theorem kahnLoop_nodup {nodes : List TaskNode} :
    ∀ fuel placed, placed.Nodup → (kahnLoop nodes fuel placed).Nodup := by
  intro fuel
  induction fuel with
  | zero => intro placed h; exact h
  | succ fuel ih =>
    intro placed h
    rw [kahnLoop]
    match hpick : kahnPick nodes placed with
    | none => exact h
    | some p =>
      refine ih (placed ++ [p]) ?_
      have hpred := List.find?_some hpick
      simp only [Bool.and_eq_true, Bool.not_eq_true'] at hpred
      have hnp : p ∉ placed := by
        intro hmem
        have h2 : placed.contains p = true := List.elem_iff.mpr hmem
        rw [hpred.1] at h2
        exact Bool.false_ne_true h2
      simp [List.nodup_append, h, hnp]

theorem kahnLoop_bounded {nodes : List TaskNode} :
    ∀ fuel placed, (∀ x ∈ placed, x < nodes.length) →
      ∀ x ∈ kahnLoop nodes fuel placed, x < nodes.length := by
  intro fuel
  induction fuel with
  | zero => intro placed h; exact h
  | succ fuel ih =>
    intro placed h
    rw [kahnLoop]
    match hpick : kahnPick nodes placed with
    | none => exact h
    | some p =>
      refine ih (placed ++ [p]) ?_
      intro x hx
      rcases List.mem_append.mp hx with hx | hx
      · exact h x hx
      · have hp : p ∈ List.range nodes.length := List.mem_of_find?_eq_some hpick
        rw [List.mem_singleton] at hx
        subst hx
        exact List.mem_range.mp hp

theorem length_lt_of_nodup_missing {l : List Nat} {n i : Nat}
    (hnd : l.Nodup) (hsub : ∀ x ∈ l, x < n) (hi : i < n) (hni : i ∉ l) :
    l.length < n := by
  have hsubset : l.toFinset ⊆ (Finset.range n).erase i := by
    intro x hx
    rw [List.mem_toFinset] at hx
    rw [Finset.mem_erase, Finset.mem_range]
    exact ⟨fun hxi => hni (hxi ▸ hx), hsub x hx⟩
  have hcard := Finset.card_le_card hsubset
  rw [List.toFinset_card_of_nodup hnd,
    Finset.card_erase_of_mem (Finset.mem_range.mpr hi), Finset.card_range] at hcard
  omega

theorem topoOrder_incomplete_of_cycle {nodes : List TaskNode}
    (hcyc : HasCycle nodes) : (topoOrder nodes).length < nodes.length := by
  obtain ⟨c, hc⟩ := hcyc
  exact length_lt_of_nodup_missing
    (kahnLoop_nodup nodes.length [] List.nodup_nil)
    (kahnLoop_bounded nodes.length [] (by simp))
    hc.source_lt
    (kahnLoop_cycle_not_mem hc nodes.length [] (by simp))

/-- Modelled from the spec: §6 submission options (the failure policy and
default retry policy play no part in the claims settled here and are
omitted). -/
structure RunOptions where
  maxConcurrency : Nat
deriving DecidableEq

/-- Modelled from the spec: §3 TaskExecutionState — the per
(dispatch identifier, task identity) record: status, attempt count, result
value or error, the input values read from the dependencies at dispatch,
start/end timestamps.  Result and input values are modelled as `Nat`. -/
structure TaskExecState where
  status : TaskStatus
  attempts : Nat
  result : Option Nat
  errorMsg : Option String
  inputs : List Nat
  startTime : Option Nat
  endTime : Option Nat
deriving DecidableEq

/-- The state a task record starts in: PENDING, no attempts, nothing recorded. -/
def initTask : TaskExecState :=
  ⟨TaskStatus.PENDING, 0, none, none, [], none, none⟩

def getTask (ts : List TaskExecState) (i : Nat) : TaskExecState :=
  ts.getD i initTask

/-- Modelled from the spec: §3 DispatchRecord's live run state, owned by
one Dispatch Engine instance: the graph's nodes, the run options, one
TaskExecutionState per node, and a logical clock supplying timestamps
(advanced by every engine transition). -/
structure RunState where
  nodes : List TaskNode
  opts : RunOptions
  tasks : List TaskExecState
  clock : Nat
deriving DecidableEq

def taskAt (s : RunState) (i : Nat) : TaskExecState := getTask s.tasks i

/-- Modelled from the spec: §3 — the run state created at submission:
every task PENDING. -/
def initRun (nodes : List TaskNode) (opts : RunOptions) : RunState :=
  ⟨nodes, opts, List.replicate nodes.length initTask, 0⟩

/-- Modelled from the spec: §2/§4.6 Dispatch Registry — the map from
dispatch identifier to run, plus a counter generating fresh identifiers
(globally unique for the registry's lifetime). -/
structure Registry where
  runs : List (String × RunState)
  nextId : Nat
deriving DecidableEq

def newDispatchId (reg : Registry) : String :=
  ("dispatch-") ++ toString reg.nextId

/-- Modelled from the spec: §4.6 `submit(graph, options) -> dispatchId` —
builds/validates the graph; a GraphError is fatal to the submission and the
registry is left untouched (nothing partially started); otherwise a fresh
dispatch identifier is assigned and a run record created with every task
PENDING. -/
def submit (reg : Registry) (nodes : List TaskNode) (opts : RunOptions) :
    Registry × Except GraphError String :=
  match build nodes with
  | Except.error e => (reg, Except.error e)
  | Except.ok g =>
    let did := newDispatchId reg
    (⟨reg.runs ++ [(did, initRun g.nodes opts)], reg.nextId + 1⟩,
      Except.ok did)

/-- C2: a graph containing at least one cycle (its dependency references
naming nodes of the same graph, as the spec's Graph data model requires) is
rejected by `build`, and hence by `submit`, with `GraphError.Cycle`; the
error is fatal to the submission: the registry is returned unchanged, so no
run record or task execution state is created and no task executes. -/
theorem cycle_rejected_at_submit (nodes : List TaskNode) (reg : Registry)
    (opts : RunOptions) (hrefs : validRefs nodes = true)
    (hcyc : HasCycle nodes) :
    build nodes = Except.error GraphError.Cycle ∧
      (submit reg nodes opts).2 = Except.error GraphError.Cycle ∧
      (submit reg nodes opts).1 = reg := by
  have hlt := topoOrder_incomplete_of_cycle hcyc
  have hbuild : build nodes = Except.error GraphError.Cycle := by
    rw [build, if_pos hrefs, if_neg (by omega)]
  refine ⟨hbuild, ?_, ?_⟩ <;> rw [submit, hbuild]

/-- Closed instance of C2: the two-node graph `0 ↔ 1` is cyclic with valid
references and is rejected without touching an empty registry. -/
theorem cycle_rejected_at_submit_witness :
    build [⟨[1], 1⟩, ⟨[0], 1⟩] = Except.error GraphError.Cycle ∧
      (submit ⟨[], 0⟩ [⟨[1], 1⟩, ⟨[0], 1⟩] ⟨2⟩).2 =
        Except.error GraphError.Cycle ∧
      (submit ⟨[], 0⟩ [⟨[1], 1⟩, ⟨[0], 1⟩] ⟨2⟩).1 = ⟨[], 0⟩ :=
  cycle_rejected_at_submit [⟨[1], 1⟩, ⟨[0], 1⟩] ⟨[], 0⟩ ⟨2⟩ (by decide)
    ⟨0, @DepPath.cons [⟨[1], 1⟩, ⟨[0], 1⟩] 0 1 0 (by decide)
      (@DepPath.edge [⟨[1], 1⟩, ⟨[0], 1⟩] 1 0 (by decide))⟩

/-! ### Engine transitions -/

/-- The number of tasks currently in flight (status RUNNING). -/
def runningCount (s : RunState) : Nat :=
  s.tasks.countP (fun t => t.status == TaskStatus.RUNNING)

/-- Modelled from the spec: §4.2 — all of the task's dependencies are in
the terminal-success status COMPLETED. -/
def depsCompleted (s : RunState) (i : Nat) : Bool :=
  (depsOf s.nodes i).all
    (fun d => (taskAt s d).status == TaskStatus.COMPLETED)

/-- Modelled from the spec: §4.2/§4.3 — a task may be dispatched when it is
not yet started (PENDING) or re-enqueued for retry (RETRYING), every one of
its dependencies has a COMPLETED result, and an in-flight slot is free
under the configured maximum in-flight count. -/
def canStart (s : RunState) (i : Nat) : Bool :=
  decide (i < s.tasks.length) &&
    ((taskAt s i).status == TaskStatus.PENDING ||
      (taskAt s i).status == TaskStatus.RETRYING) &&
    depsCompleted s i &&
    decide (runningCount s < s.opts.maxConcurrency)

/-- Modelled from the spec: §4.3 drive loop step (b) — transition a ready
task to RUNNING, increment its attempt counter, and build its input values
by reading the completed results of its dependencies. -/
def startTask (s : RunState) (i : Nat) : Option RunState :=
  if canStart s i then
    some { s with
      tasks := s.tasks.set i
        { taskAt s i with
          status := TaskStatus.RUNNING
          attempts := (taskAt s i).attempts + 1
          inputs := (depsOf s.nodes i).map
            (fun d => ((taskAt s d).result).getD 0)
          startTime := some s.clock }
      clock := s.clock + 1 }
  else none

/-- Modelled from the spec: §4.3 drive loop step (c), success — record the
result value and transition RUNNING → COMPLETED. -/
def completeTask (s : RunState) (i : Nat) (v : Nat) : Option RunState :=
  if (taskAt s i).status == TaskStatus.RUNNING &&
      decide (i < s.tasks.length) then
    some { s with
      tasks := s.tasks.set i
        { taskAt s i with
          status := TaskStatus.COMPLETED
          result := some v
          endTime := some s.clock }
      clock := s.clock + 1 }
  else none

/-- Modelled from the spec: §4.3 Retry / §4.4 — an executor failure is
recorded and attributed to the attempt; with attempts remaining under the
retry policy the task is re-enqueued (RETRYING), otherwise it reaches
terminal FAILED. -/
def failTask (s : RunState) (i : Nat) (msg : String) : Option RunState :=
  if (taskAt s i).status == TaskStatus.RUNNING &&
      decide (i < s.tasks.length) then
    some { s with
      tasks := s.tasks.set i
        (if (taskAt s i).attempts < (nodeAt s.nodes i).maxAttempts then
          { taskAt s i with
            status := TaskStatus.RETRYING
            errorMsg := some msg }
        else
          { taskAt s i with
            status := TaskStatus.FAILED
            errorMsg := some msg
            endTime := some s.clock })
      clock := s.clock + 1 }
  else none

/-- Modelled from the spec: §4.3 Cancellation — an explicit cancellation
request transitions every non-terminal task to CANCELLED. -/
def cancelRun (s : RunState) : RunState :=
  { s with
    tasks := s.tasks.map (fun t =>
      if t.status.isTerminal then t
      else { t with status := TaskStatus.CANCELLED, endTime := some s.clock })
    clock := s.clock + 1 }

/-- Modelled from the spec: §4.3 — the engine's possible transitions on the
run state it owns. -/
inductive EngineStep : RunState → RunState → Prop
  | start {s s' : RunState} {i : Nat} :
      startTask s i = some s' → EngineStep s s'
  | complete {s s' : RunState} {i v : Nat} :
      completeTask s i v = some s' → EngineStep s s'
  | fail {s s' : RunState} {i : Nat} {msg : String} :
      failTask s i msg = some s' → EngineStep s s'
  | cancel {s : RunState} : EngineStep s (cancelRun s)

/-- A run state reachable from another by zero or more engine transitions. -/
def EngineReach (s s' : RunState) : Prop := Relation.ReflTransGen EngineStep s s'

/-! ### List bookkeeping lemmas for the run state -/

theorem getTask_set_self {ts : List TaskExecState} {i : Nat}
    (h : i < ts.length) (t : TaskExecState) : getTask (ts.set i t) i = t := by
  induction ts generalizing i with
  | nil => simp at h
  | cons a ts ih =>
    cases i with
    | zero => rfl
    | succ i => exact ih (by simpa using h)

theorem getTask_set_ne {ts : List TaskExecState} (t : TaskExecState) :
    ∀ {i j : Nat}, i ≠ j → getTask (ts.set i t) j = getTask ts j := by
  induction ts with
  | nil => intro i j h; rfl
  | cons a ts ih =>
    intro i j h
    cases i with
    | zero =>
      cases j with
      | zero => exact absurd rfl h
      | succ j => rfl
    | succ i =>
      cases j with
      | zero => rfl
      | succ j =>
        show getTask (ts.set i t) j = getTask ts j
        exact ih (by omega)

theorem getTask_map {f : TaskExecState → TaskExecState}
    {ts : List TaskExecState} {i : Nat} (h : i < ts.length) :
    getTask (ts.map f) i = f (getTask ts i) := by
  induction ts generalizing i with
  | nil => simp at h
  | cons a ts ih =>
    cases i with
    | zero => rfl
    | succ i => exact ih (by simpa using h)

theorem getTask_out_of_range {ts : List TaskExecState} {i : Nat}
    (h : ts.length ≤ i) : getTask ts i = initTask := by
  rw [getTask, List.getD_eq_default _ _ h]

theorem getTask_replicate (n i : Nat) :
    getTask (List.replicate n initTask) i = initTask := by
  induction n generalizing i with
  | zero => rfl
  | succ n ih =>
    cases i with
    | zero => rfl
    | succ i => exact ih i

theorem countP_set_balance (p : TaskExecState → Bool) :
    ∀ (ts : List TaskExecState) (i : Nat) (t : TaskExecState), i < ts.length →
      (ts.set i t).countP p + (if p (getTask ts i) then 1 else 0) =
        ts.countP p + (if p t then 1 else 0) := by
  intro ts
  induction ts with
  | nil => intro i t h; simp at h
  | cons a ts ih =>
    intro i t h
    cases i with
    | zero =>
      show (t :: ts).countP p + _ = (a :: ts).countP p + _
      by_cases hpa : p a <;> by_cases hpt : p t <;>
        simp [List.countP_cons, hpa, hpt, getTask] <;> omega
    | succ i =>
      show (a :: ts.set i t).countP p + _ = (a :: ts).countP p + _
      have := ih i t (by simpa using h)
      by_cases hpa : p a <;>
        simp [List.countP_cons, hpa, getTask, List.getD_cons_succ] at this ⊢ <;>
        omega

theorem countP_map_zero {f : TaskExecState → TaskExecState}
    {p : TaskExecState → Bool} (ts : List TaskExecState)
    (h : ∀ t, p (f t) = false) : (ts.map f).countP p = 0 := by
  induction ts with
  | nil => rfl
  | cons a ts ih => simp [List.countP_cons, h, ih]

/-! ### Inversion of the engine transitions -/

theorem startTask_eq {s s' : RunState} {i : Nat}
    (h : startTask s i = some s') :
    canStart s i = true ∧
      s' = { s with
        tasks := s.tasks.set i
          { taskAt s i with
            status := TaskStatus.RUNNING
            attempts := (taskAt s i).attempts + 1
            inputs := (depsOf s.nodes i).map
              (fun d => ((taskAt s d).result).getD 0)
            startTime := some s.clock }
        clock := s.clock + 1 } := by
  rw [startTask] at h
  split at h
  · exact ⟨by assumption, (Option.some.inj h).symm⟩
  · exact absurd h (by simp)

theorem completeTask_eq {s s' : RunState} {i v : Nat}
    (h : completeTask s i v = some s') :
    (taskAt s i).status = TaskStatus.RUNNING ∧ i < s.tasks.length ∧
      s' = { s with
        tasks := s.tasks.set i
          { taskAt s i with
            status := TaskStatus.COMPLETED
            result := some v
            endTime := some s.clock }
        clock := s.clock + 1 } := by
  rw [completeTask] at h
  split at h
  · rename_i hc
    simp only [Bool.and_eq_true, beq_iff_eq, decide_eq_true_eq] at hc
    exact ⟨hc.1, hc.2, (Option.some.inj h).symm⟩
  · exact absurd h (by simp)

theorem failTask_eq {s s' : RunState} {i : Nat} {msg : String}
    (h : failTask s i msg = some s') :
    (taskAt s i).status = TaskStatus.RUNNING ∧ i < s.tasks.length ∧
      s' = { s with
        tasks := s.tasks.set i
          (if (taskAt s i).attempts < (nodeAt s.nodes i).maxAttempts then
            { taskAt s i with
              status := TaskStatus.RETRYING
              errorMsg := some msg }
          else
            { taskAt s i with
              status := TaskStatus.FAILED
              errorMsg := some msg
              endTime := some s.clock })
        clock := s.clock + 1 } := by
  rw [failTask] at h
  split at h
  · rename_i hc
    simp only [Bool.and_eq_true, beq_iff_eq, decide_eq_true_eq] at hc
    exact ⟨hc.1, hc.2, (Option.some.inj h).symm⟩
  · exact absurd h (by simp)

theorem canStart_parts {s : RunState} {i : Nat} (h : canStart s i = true) :
    i < s.tasks.length ∧
      ((taskAt s i).status = TaskStatus.PENDING ∨
        (taskAt s i).status = TaskStatus.RETRYING) ∧
      (∀ d ∈ depsOf s.nodes i, (taskAt s d).status = TaskStatus.COMPLETED) ∧
      runningCount s < s.opts.maxConcurrency := by
  rw [canStart] at h
  simp only [Bool.and_eq_true, Bool.or_eq_true, beq_iff_eq,
    decide_eq_true_eq, depsCompleted, List.all_eq_true] at h
  exact ⟨h.1.1.1, h.1.1.2, h.1.2, h.2⟩

/-! ### Effect of each transition on the per-task records -/

theorem startTask_nodes {s s' : RunState} {i : Nat}
    (h : startTask s i = some s') : s'.nodes = s.nodes := by
  obtain ⟨-, rfl⟩ := startTask_eq h; rfl

theorem startTask_opts {s s' : RunState} {i : Nat}
    (h : startTask s i = some s') : s'.opts = s.opts := by
  obtain ⟨-, rfl⟩ := startTask_eq h; rfl

theorem startTask_len {s s' : RunState} {i : Nat}
    (h : startTask s i = some s') : s'.tasks.length = s.tasks.length := by
  obtain ⟨-, rfl⟩ := startTask_eq h; exact List.length_set s.tasks i _

theorem startTask_at_self {s s' : RunState} {i : Nat}
    (h : startTask s i = some s') :
    taskAt s' i =
      { taskAt s i with
        status := TaskStatus.RUNNING
        attempts := (taskAt s i).attempts + 1
        inputs := (depsOf s.nodes i).map (fun d => ((taskAt s d).result).getD 0)
        startTime := some s.clock } := by
  obtain ⟨hcan, rfl⟩ := startTask_eq h
  exact getTask_set_self (canStart_parts hcan).1 _

theorem startTask_at_other {s s' : RunState} {i j : Nat}
    (h : startTask s i = some s') (hij : i ≠ j) : taskAt s' j = taskAt s j := by
  obtain ⟨-, rfl⟩ := startTask_eq h
  exact getTask_set_ne _ hij

theorem completeTask_nodes {s s' : RunState} {i v : Nat}
    (h : completeTask s i v = some s') : s'.nodes = s.nodes := by
  obtain ⟨-, -, rfl⟩ := completeTask_eq h; rfl

theorem completeTask_opts {s s' : RunState} {i v : Nat}
    (h : completeTask s i v = some s') : s'.opts = s.opts := by
  obtain ⟨-, -, rfl⟩ := completeTask_eq h; rfl

theorem completeTask_len {s s' : RunState} {i v : Nat}
    (h : completeTask s i v = some s') : s'.tasks.length = s.tasks.length := by
  obtain ⟨-, -, rfl⟩ := completeTask_eq h; exact List.length_set s.tasks i _

theorem completeTask_at_self {s s' : RunState} {i v : Nat}
    (h : completeTask s i v = some s') :
    taskAt s' i =
      { taskAt s i with
        status := TaskStatus.COMPLETED
        result := some v
        endTime := some s.clock } := by
  obtain ⟨-, hlen, rfl⟩ := completeTask_eq h
  exact getTask_set_self hlen _

theorem completeTask_at_other {s s' : RunState} {i j v : Nat}
    (h : completeTask s i v = some s') (hij : i ≠ j) :
    taskAt s' j = taskAt s j := by
  obtain ⟨-, -, rfl⟩ := completeTask_eq h
  exact getTask_set_ne _ hij

theorem failTask_nodes {s s' : RunState} {i : Nat} {msg : String}
    (h : failTask s i msg = some s') : s'.nodes = s.nodes := by
  obtain ⟨-, -, rfl⟩ := failTask_eq h; rfl

theorem failTask_opts {s s' : RunState} {i : Nat} {msg : String}
    (h : failTask s i msg = some s') : s'.opts = s.opts := by
  obtain ⟨-, -, rfl⟩ := failTask_eq h; rfl

theorem failTask_len {s s' : RunState} {i : Nat} {msg : String}
    (h : failTask s i msg = some s') : s'.tasks.length = s.tasks.length := by
  obtain ⟨-, -, rfl⟩ := failTask_eq h; exact List.length_set s.tasks i _

theorem failTask_at_self {s s' : RunState} {i : Nat} {msg : String}
    (h : failTask s i msg = some s') :
    taskAt s' i =
      (if (taskAt s i).attempts < (nodeAt s.nodes i).maxAttempts then
        { taskAt s i with
          status := TaskStatus.RETRYING
          errorMsg := some msg }
      else
        { taskAt s i with
          status := TaskStatus.FAILED
          errorMsg := some msg
          endTime := some s.clock }) := by
  obtain ⟨-, hlen, rfl⟩ := failTask_eq h
  exact getTask_set_self hlen _

theorem failTask_at_other {s s' : RunState} {i j : Nat} {msg : String}
    (h : failTask s i msg = some s') (hij : i ≠ j) :
    taskAt s' j = taskAt s j := by
  obtain ⟨-, -, rfl⟩ := failTask_eq h
  exact getTask_set_ne _ hij

theorem cancelRun_nodes (s : RunState) : (cancelRun s).nodes = s.nodes := rfl

theorem cancelRun_opts (s : RunState) : (cancelRun s).opts = s.opts := rfl

theorem cancelRun_len (s : RunState) :
    (cancelRun s).tasks.length = s.tasks.length := List.length_map s.tasks _

theorem cancelRun_at {s : RunState} {i : Nat} (h : i < s.tasks.length) :
    taskAt (cancelRun s) i =
      (if (taskAt s i).status.isTerminal then taskAt s i
      else { taskAt s i with
        status := TaskStatus.CANCELLED
        endTime := some s.clock }) :=
  getTask_map h

theorem cancelRun_at_of_terminal {s : RunState} {i : Nat}
    (h : (taskAt s i).status.isTerminal = true) :
    taskAt (cancelRun s) i = taskAt s i := by
  by_cases hlen : i < s.tasks.length
  · rw [cancelRun_at hlen, if_pos h]
  · rw [taskAt, getTask_out_of_range (by rw [cancelRun_len]; omega),
      taskAt, getTask_out_of_range (by omega)]

theorem cancelRun_not_running (s : RunState) (i : Nat) :
    (taskAt (cancelRun s) i).status ≠ TaskStatus.RUNNING := by
  by_cases hlen : i < s.tasks.length
  · rw [cancelRun_at hlen]
    split
    · rename_i hterm
      intro hc
      rw [hc] at hterm
      exact absurd hterm (by decide)
    · simp
  · rw [taskAt, getTask_out_of_range (by rw [cancelRun_len]; omega)]
    decide

/-- Statuses of the terminal family are never COMPLETED targets of a start
guard; a convenience fact used repeatedly below. -/
theorem status_not_completed_of_startable {st : TaskStatus}
    (h : st = TaskStatus.PENDING ∨ st = TaskStatus.RETRYING) :
    st ≠ TaskStatus.COMPLETED := by
  rcases h with h | h <;> rw [h] <;> decide

/-! ### C1: a task runs only after its dependencies completed -/

theorem step_running_deps {s s' : RunState} (hstep : EngineStep s s')
    (ih : ∀ i, (taskAt s i).status = TaskStatus.RUNNING →
      ∀ d ∈ depsOf s.nodes i, (taskAt s d).status = TaskStatus.COMPLETED) :
    ∀ i, (taskAt s' i).status = TaskStatus.RUNNING →
      ∀ d ∈ depsOf s'.nodes i, (taskAt s' d).status = TaskStatus.COMPLETED := by
  cases hstep with
  | start hst =>
    rename_i j
    obtain ⟨hlen, hstat, hdeps, hcap⟩ := canStart_parts (startTask_eq hst).1
    intro i hi d hd
    rw [startTask_nodes hst] at hd
    by_cases hij : i = j
    · rw [hij] at hd
      have hdc := hdeps d hd
      have hdj : j ≠ d := fun hdj => status_not_completed_of_startable hstat
        (by rw [hdj]; exact hdc)
      rw [startTask_at_other hst hdj]
      exact hdc
    · rw [startTask_at_other hst (fun hc => hij hc.symm)] at hi
      have hdc := ih i hi d hd
      have hdj : j ≠ d := fun hdj => status_not_completed_of_startable hstat
        (by rw [hdj]; exact hdc)
      rw [startTask_at_other hst hdj]
      exact hdc
  | complete hct =>
    rename_i j v
    obtain ⟨hrun, hlen, -⟩ := completeTask_eq hct
    intro i hi d hd
    rw [completeTask_nodes hct] at hd
    by_cases hdj : d = j
    · subst hdj
      rw [completeTask_at_self hct]
    · rw [completeTask_at_other hct (fun hc => hdj hc.symm)]
      have hij : i ≠ j := fun hij => by
        rw [hij, completeTask_at_self hct] at hi
        simp at hi
      rw [completeTask_at_other hct (fun hc => hij hc.symm)] at hi
      exact ih i hi d hd
  | fail hft =>
    rename_i j msg
    obtain ⟨hrun, hlen, -⟩ := failTask_eq hft
    intro i hi d hd
    rw [failTask_nodes hft] at hd
    have hij : i ≠ j := fun hij => by
      rw [hij, failTask_at_self hft] at hi
      split at hi <;> simp at hi
    rw [failTask_at_other hft (fun hc => hij hc.symm)] at hi
    have hdc := ih i hi d hd
    have hdj : j ≠ d := fun hdj => by
      rw [← hdj, hrun] at hdc
      exact absurd hdc (by decide)
    rw [failTask_at_other hft hdj]
    exact hdc
  | cancel =>
    intro i hi
    exact absurd hi (cancelRun_not_running s i)

/-- C1: in every run state reachable from submission of any graph, a task
in status RUNNING has every one of its dependencies in the terminal status
COMPLETED — equivalently, since a task's input values are read exactly at
its transition to RUNNING (see `startTask`), a task's inputs are read only
after all its dependencies have recorded a COMPLETED result. -/
theorem task_runs_only_after_deps_completed (nodes : List TaskNode)
    (opts : RunOptions) (s : RunState)
    (hreach : EngineReach (initRun nodes opts) s) :
    ∀ i, (taskAt s i).status = TaskStatus.RUNNING →
      ∀ d ∈ depsOf s.nodes i, (taskAt s d).status = TaskStatus.COMPLETED := by
  induction hreach with
  | refl =>
    intro i hi
    rw [taskAt, show (initRun nodes opts).tasks =
      List.replicate nodes.length initTask from rfl, getTask_replicate] at hi
    exact absurd hi (by decide)
  | tail hsteps hstep ih => exact step_running_deps hstep ih

/-! ### C7: the number of in-flight tasks never exceeds the bound -/

theorem countP_replicate_zero (n : Nat) (p : TaskExecState → Bool)
    (h : p initTask = false) : (List.replicate n initTask).countP p = 0 := by
  induction n with
  | zero => rfl
  | succ n ih => simp [List.replicate_succ, List.countP_cons, h, ih]

theorem countP_set_to_true {p : TaskExecState → Bool}
    {ts : List TaskExecState} {i : Nat} {t : TaskExecState}
    (hlen : i < ts.length) (hold : p (getTask ts i) = false)
    (hnew : p t = true) : (ts.set i t).countP p = ts.countP p + 1 := by
  have hb := countP_set_balance p ts i t hlen
  rw [hold, hnew] at hb
  simpa using hb

theorem countP_set_to_false {p : TaskExecState → Bool}
    {ts : List TaskExecState} {i : Nat} {t : TaskExecState}
    (hlen : i < ts.length) (hold : p (getTask ts i) = true)
    (hnew : p t = false) : (ts.set i t).countP p + 1 = ts.countP p := by
  have hb := countP_set_balance p ts i t hlen
  rw [hold, hnew] at hb
  simpa using hb

theorem runningCount_start {s s' : RunState} {i : Nat}
    (h : startTask s i = some s') : runningCount s' = runningCount s + 1 := by
  obtain ⟨hcan, rfl⟩ := startTask_eq h
  obtain ⟨hlen, hstat, -, -⟩ := canStart_parts hcan
  show (s.tasks.set i _).countP _ = s.tasks.countP _ + 1
  refine countP_set_to_true hlen ?_ rfl
  show ((taskAt s i).status == TaskStatus.RUNNING) = false
  rcases hstat with hp | hp <;> rw [hp] <;> rfl

theorem runningCount_complete {s s' : RunState} {i v : Nat}
    (h : completeTask s i v = some s') :
    runningCount s' + 1 = runningCount s := by
  obtain ⟨hrun, hlen, rfl⟩ := completeTask_eq h
  show (s.tasks.set i _).countP _ + 1 = s.tasks.countP _
  refine countP_set_to_false hlen ?_ rfl
  show ((taskAt s i).status == TaskStatus.RUNNING) = true
  rw [hrun]
  decide

theorem runningCount_fail {s s' : RunState} {i : Nat} {msg : String}
    (h : failTask s i msg = some s') :
    runningCount s' + 1 = runningCount s := by
  obtain ⟨hrun, hlen, rfl⟩ := failTask_eq h
  show (s.tasks.set i _).countP _ + 1 = s.tasks.countP _
  refine countP_set_to_false hlen ?_ ?_
  · show ((taskAt s i).status == TaskStatus.RUNNING) = true
    rw [hrun]
    decide
  · show ((if _ then _ else _ : TaskExecState).status ==
      TaskStatus.RUNNING) = false
    split <;> rfl

theorem runningCount_cancel (s : RunState) : runningCount (cancelRun s) = 0 := by
  show (s.tasks.map _).countP _ = 0
  refine countP_map_zero s.tasks ?_
  intro t
  by_cases hterm : t.status.isTerminal
  · have hne : t.status ≠ TaskStatus.RUNNING := by
      intro hc
      rw [hc] at hterm
      exact absurd hterm (by decide)
    simp [hterm, hne]
  · simp [hterm]

/-- C7: in every run state reachable from submission, the number of tasks
simultaneously in status RUNNING never exceeds the configured maximum
in-flight count — in particular, with `maxConcurrency = 2` at most two
tasks are RUNNING at any observed instant, and further ready tasks wait
(`canStart` refuses them) until a slot frees up. -/
theorem concurrency_bound_invariant (nodes : List TaskNode)
    (opts : RunOptions) (s : RunState)
    (hreach : EngineReach (initRun nodes opts) s) :
    runningCount s ≤ s.opts.maxConcurrency := by
  induction hreach with
  | refl =>
    show (List.replicate nodes.length initTask).countP _ ≤ opts.maxConcurrency
    rw [countP_replicate_zero _ _ (by decide)]
    omega
  | tail hsteps hstep ih =>
    cases hstep with
    | start hst =>
      have h1 := runningCount_start hst
      have h2 := (canStart_parts (startTask_eq hst).1).2.2.2
      rw [h1, startTask_opts hst]
      omega
    | complete hct =>
      have h1 := runningCount_complete hct
      rw [completeTask_opts hct]
      omega
    | fail hft =>
      have h1 := runningCount_fail hft
      rw [failTask_opts hft]
      omega
    | cancel =>
      rw [runningCount_cancel, cancelRun_opts]
      omega

/-! ### C4: the aggregate workflow status -/

/-- Modelled from the spec: §4.3 workflow aggregate status — RUNNING while
any task is non-terminal; once all tasks are terminal, COMPLETED iff all
tasks reached COMPLETED, else FAILED iff at least one task reached terminal
FAILED, else CANCELLED. -/
def aggregateStatus (s : RunState) : WorkflowStatus :=
  if s.tasks.any (fun t => !t.status.isTerminal) then WorkflowStatus.RUNNING
  else if s.tasks.all (fun t => t.status == TaskStatus.COMPLETED) then
    WorkflowStatus.COMPLETED
  else if s.tasks.any (fun t => t.status == TaskStatus.FAILED) then
    WorkflowStatus.FAILED
  else WorkflowStatus.CANCELLED

theorem aggregate_running_of_nonterminal (s : RunState)
    (h : ∃ t ∈ s.tasks, t.status.isTerminal = false) :
    aggregateStatus s = WorkflowStatus.RUNNING := by
  rw [aggregateStatus, if_pos]
  rw [List.any_eq_true]
  obtain ⟨t, ht, hf⟩ := h
  exact ⟨t, ht, by rw [hf]; rfl⟩

theorem completed_is_terminal {st : TaskStatus}
    (h : st = TaskStatus.COMPLETED) : st.isTerminal = true := by
  rw [h]; rfl

theorem aggregate_completed_iff (s : RunState) :
    aggregateStatus s = WorkflowStatus.COMPLETED ↔
      ∀ t ∈ s.tasks, t.status = TaskStatus.COMPLETED := by
  constructor
  · intro h
    rw [aggregateStatus] at h
    by_cases h1 : s.tasks.any (fun t => !t.status.isTerminal) = true
    · rw [if_pos h1] at h
      exact absurd h (by decide)
    · rw [if_neg h1] at h
      by_cases h2 : s.tasks.all (fun t => t.status == TaskStatus.COMPLETED) = true
      · intro t ht
        rw [List.all_eq_true] at h2
        have hc := h2 t ht
        rwa [beq_iff_eq] at hc
      · rw [if_neg h2] at h
        split at h <;> exact absurd h (by decide)
  · intro h
    have h1 : s.tasks.any (fun t => !t.status.isTerminal) = false := by
      rw [List.any_eq_false]
      intro t ht
      rw [Bool.not_eq_true, Bool.not_eq_false']
      exact completed_is_terminal (h t ht)
    have h2 : s.tasks.all (fun t => t.status == TaskStatus.COMPLETED) = true := by
      rw [List.all_eq_true]
      intro t ht
      rw [beq_iff_eq]
      exact h t ht
    rw [aggregateStatus, if_neg (by rw [h1]; exact Bool.false_ne_true),
      if_pos h2]

/-- C4: the aggregate workflow status is RUNNING while any task of the run
is non-terminal, and it is COMPLETED if and only if every task of the run
reached COMPLETED. -/
theorem aggregate_status_spec (s : RunState) :
    ((∃ t ∈ s.tasks, t.status.isTerminal = false) →
        aggregateStatus s = WorkflowStatus.RUNNING) ∧
      (aggregateStatus s = WorkflowStatus.COMPLETED ↔
        ∀ t ∈ s.tasks, t.status = TaskStatus.COMPLETED) :=
  ⟨aggregate_running_of_nonterminal s, aggregate_completed_iff s⟩

/-! ### C6: result retrieval is idempotent and read-only -/

/-- Modelled from the spec: §4.5/§6 — `result(dispatchId, taskId)`: a pure
read of the task's recorded result; the run state comes back unchanged. -/
def resultQuery (s : RunState) (i : Nat) : Option Nat × RunState :=
  ((taskAt s i).result, s)

theorem step_preserves_terminal {s s' : RunState} {i : Nat}
    (hstep : EngineStep s s')
    (hterm : (taskAt s i).status.isTerminal = true) :
    taskAt s' i = taskAt s i := by
  cases hstep with
  | start hst =>
    rename_i j
    obtain ⟨-, hstat, -, -⟩ := canStart_parts (startTask_eq hst).1
    have hij : j ≠ i := fun hij => by
      rw [← hij] at hterm
      rcases hstat with hp | hp <;> rw [hp] at hterm <;>
        exact absurd hterm (by decide)
    exact startTask_at_other hst hij
  | complete hct =>
    rename_i j v
    obtain ⟨hrun, -, -⟩ := completeTask_eq hct
    have hij : j ≠ i := fun hij => by
      rw [← hij, hrun] at hterm
      exact absurd hterm (by decide)
    exact completeTask_at_other hct hij
  | fail hft =>
    rename_i j msg
    obtain ⟨hrun, -, -⟩ := failTask_eq hft
    have hij : j ≠ i := fun hij => by
      rw [← hij, hrun] at hterm
      exact absurd hterm (by decide)
    exact failTask_at_other hft hij
  | cancel => exact cancelRun_at_of_terminal hterm

theorem reach_preserves_completed {s s' : RunState} {i : Nat}
    (hreach : EngineReach s s')
    (hdone : (taskAt s i).status = TaskStatus.COMPLETED) :
    taskAt s' i = taskAt s i := by
  induction hreach with
  | refl => rfl
  | tail hsteps hstep ih =>
    rename_i b c
    have hterm : (taskAt b i).status.isTerminal = true := by
      rw [ih]
      exact completed_is_terminal hdone
    rw [step_preserves_terminal hstep hterm]
    exact ih

/-- C6: once a task of a run is COMPLETED, `result(dispatchId, taskId)` is
idempotent: after any further engine activity the query returns the same
value, it never mutates the run state (the state comes back unchanged), and
the task is never re-executed (its record is unchanged, it stays COMPLETED,
and the engine refuses to start it again). -/
theorem result_retrieval_idempotent (s s' : RunState) (i : Nat)
    (hreach : EngineReach s s')
    (hdone : (taskAt s i).status = TaskStatus.COMPLETED) :
    (resultQuery s' i).1 = (resultQuery s i).1 ∧
      (resultQuery s' i).2 = s' ∧
      (taskAt s' i).status = TaskStatus.COMPLETED ∧
      startTask s' i = none := by
  have heq := reach_preserves_completed hreach hdone
  have hstat : (taskAt s' i).status = TaskStatus.COMPLETED := by
    rw [heq]; exact hdone
  refine ⟨?_, rfl, hstat, ?_⟩
  · rw [resultQuery, resultQuery, heq]
  · rw [startTask, if_neg]
    rw [canStart]
    simp [hstat]

/-! ### Concrete runs used as closed instances -/

/-- A two-node graph: task 1 depends on task 0, one attempt each. -/
def demoNodes : List TaskNode := [⟨[], 1⟩, ⟨[0], 1⟩]

def demoOpts : RunOptions := ⟨2⟩

def demoS0 : RunState := initRun demoNodes demoOpts

def demoS1 : RunState := (startTask demoS0 0).getD demoS0

def demoS2 : RunState := (completeTask demoS1 0 42).getD demoS1

def demoS3 : RunState := (startTask demoS2 1).getD demoS2

theorem demoStep01 : EngineStep demoS0 demoS1 :=
  @EngineStep.start demoS0 demoS1 0 (by decide)

theorem demoStep12 : EngineStep demoS1 demoS2 :=
  @EngineStep.complete demoS1 demoS2 0 42 (by decide)

theorem demoStep23 : EngineStep demoS2 demoS3 :=
  @EngineStep.start demoS2 demoS3 1 (by decide)

theorem demoReach03 : EngineReach demoS0 demoS3 :=
  Relation.ReflTransGen.tail (Relation.ReflTransGen.tail
    (Relation.ReflTransGen.tail Relation.ReflTransGen.refl demoStep01)
    demoStep12) demoStep23

/-- Closed instance of C1: in the concrete two-task run in which task 1 is
RUNNING, its dependency (task 0) is COMPLETED. -/
theorem task_runs_only_after_deps_completed_witness :
    (taskAt demoS3 0).status = TaskStatus.COMPLETED :=
  task_runs_only_after_deps_completed demoNodes demoOpts demoS3
    demoReach03 1 (by decide) 0 (by decide)

/-- Closed instance of C6 at the concrete run: task 0 completed in
`demoS2`, queried again after a further engine step. -/
theorem result_retrieval_idempotent_witness :
    (resultQuery demoS3 0).1 = (resultQuery demoS2 0).1 ∧
      (resultQuery demoS3 0).2 = demoS3 ∧
      (taskAt demoS3 0).status = TaskStatus.COMPLETED ∧
      startTask demoS3 0 = none :=
  result_retrieval_idempotent demoS2 demoS3 0
    (Relation.ReflTransGen.tail Relation.ReflTransGen.refl demoStep23)
    (by decide)

/-- Four independent root tasks, as in the spec's concurrency example. -/
def fourRootNodes : List TaskNode := [⟨[], 1⟩, ⟨[], 1⟩, ⟨[], 1⟩, ⟨[], 1⟩]

def fourS0 : RunState := initRun fourRootNodes ⟨2⟩

def fourS1 : RunState := (startTask fourS0 0).getD fourS0

def fourS2 : RunState := (startTask fourS1 1).getD fourS1

theorem fourReach : EngineReach fourS0 fourS2 :=
  Relation.ReflTransGen.tail
    (Relation.ReflTransGen.tail Relation.ReflTransGen.refl
      (@EngineStep.start fourS0 fourS1 0 (by decide)))
    (@EngineStep.start fourS1 fourS2 1 (by decide))

/-- Closed instance of C7: four independent roots under
`maxConcurrency = 2` with two tasks started — the in-flight count respects
the bound. -/
theorem concurrency_bound_invariant_witness :
    runningCount fourS2 ≤ fourS2.opts.maxConcurrency :=
  concurrency_bound_invariant fourRootNodes ⟨2⟩ fourS2 fourReach

/-! ### C5: a retried task ends as if it had succeeded at once -/

theorem list_all_congr {l : List Nat} {p q : Nat → Bool}
    (h : ∀ x ∈ l, p x = q x) : l.all p = l.all q := by
  induction l with
  | nil => rfl
  | cons a l ih =>
    simp only [List.all_cons, h a (by simp)]
    rw [ih (fun x hx => h x (by simp [hx]))]

theorem countP_status_congr :
    ∀ (ts1 ts2 : List TaskExecState), ts1.length = ts2.length →
      (∀ d, (getTask ts1 d).status = (getTask ts2 d).status) →
      ts1.countP (fun t => t.status == TaskStatus.RUNNING) =
        ts2.countP (fun t => t.status == TaskStatus.RUNNING) := by
  intro ts1
  induction ts1 with
  | nil =>
    intro ts2 hl _
    cases ts2 with
    | nil => rfl
    | cons b ts2 => simp at hl
  | cons a ts ih =>
    intro ts2 hl hs
    cases ts2 with
    | nil => simp at hl
    | cons b ts2 =>
      have h0 : a.status = b.status := hs 0
      rw [List.countP_cons, List.countP_cons,
        ih ts2 (by simpa using hl) (fun d => hs (d + 1)), h0]

theorem canStart_congr {sA sB : RunState} (hnodes : sA.nodes = sB.nodes)
    (hlen : sA.tasks.length = sB.tasks.length) (hopts : sA.opts = sB.opts)
    (hstatus : ∀ d, (taskAt sA d).status = (taskAt sB d).status) :
    ∀ j, canStart sA j = canStart sB j := by
  intro j
  have hdc : depsCompleted sA j = depsCompleted sB j := by
    rw [depsCompleted, depsCompleted, hnodes]
    exact list_all_congr (fun d _ => by rw [hstatus d])
  have hrc : runningCount sA = runningCount sB :=
    countP_status_congr sA.tasks sB.tasks hlen hstatus
  rw [canStart, canStart, hdc, hrc, hlen, hopts, hstatus j]

theorem start_fail_round {s : RunState} {i : Nat} (msg : String)
    (hcan : canStart s i = true)
    (hlt : (taskAt s i).attempts + 1 < (nodeAt s.nodes i).maxAttempts) :
    ∃ s2, ((startTask s i).bind (fun t => failTask t i msg)) = some s2 ∧
      s2.nodes = s.nodes ∧ s2.opts = s.opts ∧
      s2.tasks.length = s.tasks.length ∧
      runningCount s2 = runningCount s ∧
      (∀ j, i ≠ j → taskAt s2 j = taskAt s j) ∧
      taskAt s2 i =
        { taskAt s i with
          status := TaskStatus.RETRYING
          attempts := (taskAt s i).attempts + 1
          errorMsg := some msg
          inputs := (depsOf s.nodes i).map
            (fun d => ((taskAt s d).result).getD 0)
          startTime := some s.clock } ∧
      canStart s2 i = true := by
  obtain ⟨hlen, hstat, hdeps, hcap⟩ := canStart_parts hcan
  have hdne : ∀ d ∈ depsOf s.nodes i, i ≠ d := fun d hd he =>
    status_not_completed_of_startable hstat (by rw [he]; exact hdeps d hd)
  obtain ⟨s1, hs1⟩ : ∃ x, startTask s i = some x := by
    rw [startTask, if_pos hcan]
    exact ⟨_, rfl⟩
  have ht1 := startTask_at_self hs1
  have hst1 : (taskAt s1 i).status = TaskStatus.RUNNING := by rw [ht1]
  have hlen1 : i < s1.tasks.length := by rw [startTask_len hs1]; exact hlen
  have hguard : ((taskAt s1 i).status == TaskStatus.RUNNING &&
      decide (i < s1.tasks.length)) = true := by
    rw [hst1]
    simp [hlen1]
  obtain ⟨s2, hs2⟩ : ∃ x, failTask s1 i msg = some x := by
    rw [failTask, if_pos hguard]
    exact ⟨_, rfl⟩
  have hatt1 : (taskAt s1 i).attempts = (taskAt s i).attempts + 1 := by
    rw [ht1]
  have hcond : (taskAt s1 i).attempts < (nodeAt s1.nodes i).maxAttempts := by
    rw [hatt1, startTask_nodes hs1]
    exact hlt
  have ht2 : taskAt s2 i =
      { taskAt s1 i with
        status := TaskStatus.RETRYING
        errorMsg := some msg } := by
    rw [failTask_at_self hs2, if_pos hcond]
  have hself : taskAt s2 i =
      { taskAt s i with
        status := TaskStatus.RETRYING
        attempts := (taskAt s i).attempts + 1
        errorMsg := some msg
        inputs := (depsOf s.nodes i).map
          (fun d => ((taskAt s d).result).getD 0)
        startTime := some s.clock } := by
    rw [ht2, ht1]
  have hnodes2 : s2.nodes = s.nodes := by
    rw [failTask_nodes hs2, startTask_nodes hs1]
  have hopts2 : s2.opts = s.opts := by
    rw [failTask_opts hs2, startTask_opts hs1]
  have hlen2 : s2.tasks.length = s.tasks.length := by
    rw [failTask_len hs2, startTask_len hs1]
  have hother : ∀ j, i ≠ j → taskAt s2 j = taskAt s j := fun j hij => by
    rw [failTask_at_other hs2 hij, startTask_at_other hs1 hij]
  have hrc : runningCount s2 = runningCount s := by
    have h1 := runningCount_start hs1
    have h2 := runningCount_fail hs2
    omega
  refine ⟨s2, ?_, hnodes2, hopts2, hlen2, hrc, hother, hself, ?_⟩
  · rw [hs1]
    exact hs2
  · have hc1 : decide (i < s2.tasks.length) = true := by
      rw [hlen2]
      simp [hlen]
    have hc2 : ((taskAt s2 i).status == TaskStatus.PENDING ||
        (taskAt s2 i).status == TaskStatus.RETRYING) = true := by
      rw [hself]
      rfl
    have hc3 : depsCompleted s2 i = true := by
      rw [depsCompleted, hnodes2, List.all_eq_true]
      intro d hd
      rw [hother d (hdne d hd), hdeps d hd]
      rfl
    have hc4 : decide (runningCount s2 < s2.opts.maxConcurrency) = true := by
      rw [hrc, hopts2]
      simp [hcap]
    rw [canStart, hc1, hc2, hc3, hc4]
    rfl

theorem start_complete_round {s : RunState} {i : Nat} (v : Nat)
    (hcan : canStart s i = true) :
    ∃ s2, ((startTask s i).bind (fun t => completeTask t i v)) = some s2 ∧
      s2.nodes = s.nodes ∧ s2.opts = s.opts ∧
      s2.tasks.length = s.tasks.length ∧
      runningCount s2 = runningCount s ∧
      (∀ j, i ≠ j → taskAt s2 j = taskAt s j) ∧
      taskAt s2 i =
        { taskAt s i with
          status := TaskStatus.COMPLETED
          attempts := (taskAt s i).attempts + 1
          result := some v
          inputs := (depsOf s.nodes i).map
            (fun d => ((taskAt s d).result).getD 0)
          startTime := some s.clock
          endTime := some (s.clock + 1) } := by
  obtain ⟨hlen, hstat, hdeps, hcap⟩ := canStart_parts hcan
  obtain ⟨s1, hs1⟩ : ∃ x, startTask s i = some x := by
    rw [startTask, if_pos hcan]
    exact ⟨_, rfl⟩
  have ht1 := startTask_at_self hs1
  have hst1 : (taskAt s1 i).status = TaskStatus.RUNNING := by rw [ht1]
  have hlen1 : i < s1.tasks.length := by rw [startTask_len hs1]; exact hlen
  have hguard : ((taskAt s1 i).status == TaskStatus.RUNNING &&
      decide (i < s1.tasks.length)) = true := by
    rw [hst1]
    simp [hlen1]
  obtain ⟨s2, hs2⟩ : ∃ x, completeTask s1 i v = some x := by
    rw [completeTask, if_pos hguard]
    exact ⟨_, rfl⟩
  have hclock1 : s1.clock = s.clock + 1 := by
    obtain ⟨-, rfl⟩ := startTask_eq hs1
    rfl
  have hself : taskAt s2 i =
      { taskAt s i with
        status := TaskStatus.COMPLETED
        attempts := (taskAt s i).attempts + 1
        result := some v
        inputs := (depsOf s.nodes i).map
          (fun d => ((taskAt s d).result).getD 0)
        startTime := some s.clock
        endTime := some (s.clock + 1) } := by
    rw [completeTask_at_self hs2, ht1, hclock1]
  refine ⟨s2, ?_, ?_, ?_, ?_, ?_, ?_, hself⟩
  · rw [hs1]
    exact hs2
  · rw [completeTask_nodes hs2, startTask_nodes hs1]
  · rw [completeTask_opts hs2, startTask_opts hs1]
  · rw [completeTask_len hs2, startTask_len hs1]
  · have h1 := runningCount_start hs1
    have h2 := runningCount_complete hs2
    omega
  · intro j hij
    rw [completeTask_at_other hs2 hij, startTask_at_other hs1 hij]

/-- C5: from any configuration in which task `i` is ready with no attempts
used and retry budget `maxAttempts = 3`, the schedule in which the executor
fails the first two attempts and succeeds on the third is a valid engine
execution; the task ends terminal COMPLETED with attempt count 3 and result
`v`, and every other task's record — and the readiness (`canStart`) of
every task — is exactly as after the schedule in which the same task
succeeded on its first attempt, so downstream tasks proceed identically. -/
theorem task_retry_scenario (s : RunState) (i v : Nat) (msg : String)
    (hcan : canStart s i = true)
    (hatt : (taskAt s i).attempts = 0)
    (hmax : (nodeAt s.nodes i).maxAttempts = 3) :
    ∃ sA sB,
      (((startTask s i).bind (fun t => failTask t i msg)).bind
        (fun u => ((startTask u i).bind (fun t => failTask t i msg)).bind
          (fun w => (startTask w i).bind (fun t => completeTask t i v)))) =
        some sA ∧
      ((startTask s i).bind (fun t => completeTask t i v)) = some sB ∧
      (taskAt sA i).status = TaskStatus.COMPLETED ∧
      (taskAt sA i).attempts = 3 ∧
      (taskAt sA i).result = some v ∧
      (taskAt sB i).status = TaskStatus.COMPLETED ∧
      (taskAt sB i).result = some v ∧
      (∀ j, j ≠ i → taskAt sA j = taskAt sB j) ∧
      (∀ j, canStart sA j = canStart sB j) := by
  obtain ⟨u1, hu1, hn1, ho1, hl1, hr1, hother1, hself1, hcan1⟩ :=
    start_fail_round msg hcan (by rw [hatt, hmax]; decide)
  have hatt1 : (taskAt u1 i).attempts = 1 := by
    rw [hself1]
    show (taskAt s i).attempts + 1 = 1
    rw [hatt]
  obtain ⟨u2, hu2, hn2, ho2, hl2, hr2, hother2, hself2, hcan2⟩ :=
    start_fail_round msg hcan1 (by rw [hatt1, hn1, hmax]; decide)
  have hatt2 : (taskAt u2 i).attempts = 2 := by
    rw [hself2]
    show (taskAt u1 i).attempts + 1 = 2
    rw [hatt1]
  obtain ⟨sA, hsA, hnA, hoA, hlA, hrA, hotherA, hselfA⟩ :=
    start_complete_round v hcan2
  obtain ⟨sB, hsB, hnB, hoB, hlB, hrB, hotherB, hselfB⟩ :=
    start_complete_round v hcan
  refine ⟨sA, sB, ?_, hsB, ?_, ?_, ?_, ?_, ?_, ?_, ?_⟩
  · rw [hu1]
    show ((startTask u1 i).bind (fun t => failTask t i msg)).bind _ = some sA
    rw [hu2]
    show (startTask u2 i).bind (fun t => completeTask t i v) = some sA
    exact hsA
  · rw [hselfA]
  · rw [hselfA]
    show (taskAt u2 i).attempts + 1 = 3
    rw [hatt2]
  · rw [hselfA]
  · rw [hselfB]
  · rw [hselfB]
  · intro j hj
    rw [hotherA j (Ne.symm hj), hother2 j (Ne.symm hj),
      hother1 j (Ne.symm hj), hotherB j (Ne.symm hj)]
  · have hnodes : sA.nodes = sB.nodes := by rw [hnA, hn2, hn1, hnB]
    have hlen : sA.tasks.length = sB.tasks.length := by
      rw [hlA, hl2, hl1, hlB]
    have hopts : sA.opts = sB.opts := by rw [hoA, ho2, ho1, hoB]
    have hstatus : ∀ d, (taskAt sA d).status = (taskAt sB d).status := by
      intro d
      by_cases hdi : d = i
      · subst hdi
        rw [hselfA, hselfB]
      · rw [hotherA d (Ne.symm hdi), hother2 d (Ne.symm hdi),
          hother1 d (Ne.symm hdi), hotherB d (Ne.symm hdi)]
    exact canStart_congr hnodes hlen hopts hstatus

/-- Closed instance of C5: a two-task run — task 0 with a three-attempt
retry budget and task 1 downstream of it — where task 0 fails twice and
then succeeds. -/
theorem task_retry_scenario_witness :
    ∃ sA sB,
      (((startTask (initRun [⟨[], 3⟩, ⟨[0], 1⟩] ⟨1⟩) 0).bind
          (fun t => failTask t 0 ("boom"))).bind
        (fun u => ((startTask u 0).bind (fun t => failTask t 0 ("boom"))).bind
          (fun w => (startTask w 0).bind (fun t => completeTask t 0 7)))) =
        some sA ∧
      ((startTask (initRun [⟨[], 3⟩, ⟨[0], 1⟩] ⟨1⟩) 0).bind
        (fun t => completeTask t 0 7)) = some sB ∧
      (taskAt sA 0).status = TaskStatus.COMPLETED ∧
      (taskAt sA 0).attempts = 3 ∧
      (taskAt sA 0).result = some 7 ∧
      (taskAt sB 0).status = TaskStatus.COMPLETED ∧
      (taskAt sB 0).result = some 7 ∧
      (∀ j, j ≠ 0 → taskAt sA j = taskAt sB j) ∧
      (∀ j, canStart sA j = canStart sB j) :=
  task_retry_scenario (initRun [⟨[], 3⟩, ⟨[0], 1⟩] ⟨1⟩) 0 7 ("boom")
    (by decide) (by decide) (by decide)

/-! ### C3: the blocking submission path -/

/-- Modelled from the spec: §4.3 drive loop step (a) — pick a ready task
(the first, the tie-break among ready tasks being unspecified). -/
def pickReady (s : RunState) : Option Nat :=
  (List.range s.tasks.length).find? (fun i => canStart s i)

/-- Modelled from the spec: §4.3 steps (b)–(c) with a synchronous executor
call (§4.4 `execute`): start the task, call the executor with the task's
identity and attempt number, record the result or the failure. -/
def driveStep (exec : Nat → Nat → Except String Nat) (s : RunState)
    (i : Nat) : Option RunState :=
  match startTask s i with
  | none => none
  | some s1 =>
    match exec i ((taskAt s i).attempts + 1) with
    | Except.ok v => completeTask s1 i v
    | Except.error msg => failTask s1 i msg

/-- Modelled from the spec: §4.3 drive loop — repeatedly drive a ready
task until none is ready (fuel-bounded; the fuel below covers every attempt
of every task). -/
def drive (exec : Nat → Nat → Except String Nat) : Nat → RunState → RunState
  | 0, s => s
  | fuel + 1, s =>
    match pickReady s with
    | none => s
    | some i =>
      match driveStep exec s i with
      | none => s
      | some s' => drive exec fuel s'

/-- Fuel covering every attempt of every task of the graph. -/
def driveFuel (nodes : List TaskNode) : Nat :=
  (nodes.map (fun nd => nd.maxAttempts + 1)).sum

/-- Modelled from the spec: §3 DispatchRecord — unique dispatch identifier,
the graph, the aggregate status, start/end timestamps. -/
structure DispatchRecord where
  dispatchId : String
  graph : Graph
  status : WorkflowStatus
  startTime : Nat
  endTime : Option Nat
deriving DecidableEq

/-- Modelled from the spec: §4.6 `submitAndWait(graph, options) ->
DispatchRecord` — builds the graph (GraphError is fatal, registry
untouched), creates the run, drives it to quiescence — the model of
blocking the caller until the run is terminal — and returns the registry
extended with the finished run together with the full DispatchRecord. -/
def submitAndWait (reg : Registry) (nodes : List TaskNode)
    (opts : RunOptions) (exec : Nat → Nat → Except String Nat) :
    Registry × Except GraphError DispatchRecord :=
  match build nodes with
  | Except.error e => (reg, Except.error e)
  | Except.ok g =>
    let did := newDispatchId reg
    let s0 := initRun g.nodes opts
    let sF := drive exec (driveFuel g.nodes) s0
    (⟨reg.runs ++ [(did, sF)], reg.nextId + 1⟩,
      Except.ok ⟨did, g, aggregateStatus sF, s0.clock, some sF.clock⟩)

theorem build_ok {nodes : List TaskNode} {g : Graph}
    (h : build nodes = Except.ok g) :
    validRefs nodes = true ∧ g.nodes = nodes ∧
      (topoOrder nodes).length = nodes.length := by
  rw [build] at h
  by_cases h1 : validRefs nodes = true
  · rw [if_pos h1] at h
    by_cases h2 : (topoOrder nodes).length = nodes.length
    · rw [if_pos h2] at h
      refine ⟨h1, ?_, h2⟩
      have hg := Except.ok.inj h
      rw [← hg]
    · rw [if_neg h2] at h
      exact absurd h (by simp)
  · rw [if_neg h1] at h
    exact absurd h (by simp)

theorem validRefs_lt {nodes : List TaskNode}
    (h : validRefs nodes = true) :
    ∀ i, ∀ d ∈ depsOf nodes i, d < nodes.length := by
  intro i d hd
  rw [validRefs, List.all_eq_true] at h
  by_cases hi : i < nodes.length
  · have hmem : nodeAt nodes i ∈ nodes := by
      rw [nodeAt, List.getD, List.get?_eq_get hi]
      exact List.get_mem nodes i hi
    have hall := h _ hmem
    rw [List.all_eq_true] at hall
    have := hall d hd
    rwa [decide_eq_true_eq] at this
  · rw [depsOf, nodeAt, List.getD_eq_default _ _ (by omega)] at hd
    exact absurd hd (List.not_mem_nil d)

theorem getTask_lt {ts : List TaskExecState} {j : Nat} (h : j < ts.length) :
    getTask ts j = ts.get ⟨j, h⟩ := by
  rw [getTask, List.getD, List.get?_eq_get h]
  rfl

theorem find?_congr_on {p q : Nat → Bool} :
    ∀ l : List Nat, (∀ x ∈ l, p x = q x) → l.find? p = l.find? q := by
  intro l
  induction l with
  | nil => intro _; rfl
  | cons a l ih =>
    intro h
    have ha := h a (by simp)
    by_cases hq : q a = true
    · rw [List.find?_cons_of_pos _ (by rw [ha]; exact hq),
        List.find?_cons_of_pos _ hq]
    · rw [List.find?_cons_of_neg _ (by rw [ha]; exact hq),
        List.find?_cons_of_neg _ hq]
      exact ih (fun x hx => h x (by simp [hx]))

theorem drive_stuck {exec : Nat → Nat → Except String Nat} {s : RunState}
    (h : pickReady s = none) : ∀ fuel, drive exec fuel s = s := by
  intro fuel
  cases fuel with
  | zero => rfl
  | succ fuel => rw [drive, h]

/-- Simulation invariant tying the drive loop's run state to the
topological attempt: tasks placed by the attempt are COMPLETED, all others
are still PENDING. -/
def SyncInv (nodes : List TaskNode) (opts : RunOptions) (placed : List Nat)
    (s : RunState) : Prop :=
  s.nodes = nodes ∧ s.opts = opts ∧ s.tasks.length = nodes.length ∧
    placed.Nodup ∧ (∀ x ∈ placed, x < nodes.length) ∧
    (∀ j ∈ placed, (taskAt s j).status = TaskStatus.COMPLETED) ∧
    (∀ j, j < nodes.length → j ∉ placed →
      (taskAt s j).status = TaskStatus.PENDING)

theorem SyncInv_runningCount {nodes : List TaskNode} {opts : RunOptions}
    {placed : List Nat} {s : RunState}
    (hinv : SyncInv nodes opts placed s) : runningCount s = 0 := by
  obtain ⟨-, -, hlen, -, -, hcomp, hpend⟩ := hinv
  rw [runningCount, List.countP_eq_zero]
  intro t ht
  obtain ⟨⟨j, hj⟩, rfl⟩ := List.mem_iff_get.mp ht
  rw [← getTask_lt hj]
  have hjn : j < nodes.length := by omega
  by_cases hjp : j ∈ placed
  · rw [show getTask s.tasks j = taskAt s j from rfl, hcomp j hjp]
    decide
  · rw [show getTask s.tasks j = taskAt s j from rfl, hpend j hjn hjp]
    decide

theorem SyncInv_pick {nodes : List TaskNode} {opts : RunOptions}
    {placed : List Nat} {s : RunState}
    (hinv : SyncInv nodes opts placed s)
    (hrefs : validRefs nodes = true) (hmax : 0 < opts.maxConcurrency) :
    pickReady s = kahnPick nodes placed := by
  have hrc := SyncInv_runningCount hinv
  obtain ⟨hnodes, hopts, hlen, -, -, hcomp, hpend⟩ := hinv
  rw [pickReady, kahnPick, hlen]
  refine find?_congr_on _ (fun i hi => ?_)
  rw [List.mem_range] at hi
  have hstat : ∀ d, d < nodes.length →
      ((taskAt s d).status == TaskStatus.COMPLETED) = placed.contains d := by
    intro d hdn
    by_cases hdp : d ∈ placed
    · have hcd : placed.contains d = true := List.elem_iff.mpr hdp
      rw [hcomp d hdp, hcd]
      rfl
    · rw [hpend d hdn hdp]
      have : placed.contains d = false := by
        rw [Bool.eq_false_iff]
        intro hc
        exact hdp (List.elem_iff.mp hc)
      rw [this]
      rfl
  by_cases hip : i ∈ placed
  · have h1 : canStart s i = false := by
      rw [canStart, hcomp i hip]
      simp
    have h2 : placed.contains i = true := List.elem_iff.mpr hip
    rw [h1, h2]
    rfl

  · have hpd : (taskAt s i).status = TaskStatus.PENDING := hpend i hi hip
    have h2 : placed.contains i = false := by
      rw [Bool.eq_false_iff]
      intro hc
      exact hip (List.elem_iff.mp hc)
    have hdc : depsCompleted s i = (depsOf nodes i).all
        (fun d => placed.contains d) := by
      rw [depsCompleted, hnodes]
      exact list_all_congr (fun d hd => hstat d (validRefs_lt hrefs i d hd))
    rw [canStart, hpd, hdc, h2, hlen, hrc, hopts]
    simp [hi, hmax]

theorem SyncInv_all_completed {nodes : List TaskNode} {opts : RunOptions}
    {placed : List Nat} {s : RunState}
    (hinv : SyncInv nodes opts placed s)
    (hfull : placed.length = nodes.length) :
    ∀ j, j < nodes.length → (taskAt s j).status = TaskStatus.COMPLETED := by
  obtain ⟨-, -, -, hnd, hbnd, hcomp, -⟩ := hinv
  intro j hj
  by_cases hjp : j ∈ placed
  · exact hcomp j hjp
  · have := length_lt_of_nodup_missing hnd hbnd hj hjp
    omega

theorem pickReady_none_of_completed {nodes : List TaskNode} {s : RunState}
    (hlen : s.tasks.length = nodes.length)
    (hall : ∀ j, j < nodes.length →
      (taskAt s j).status = TaskStatus.COMPLETED) :
    pickReady s = none := by
  rw [pickReady, List.find?_eq_none]
  intro j hj
  rw [List.mem_range, hlen] at hj
  rw [canStart, hall j hj]
  simp

theorem drive_completes (nodes : List TaskNode) (opts : RunOptions)
    (exec : Nat → Nat → Except String Nat)
    (hrefs : validRefs nodes = true) (hmax : 0 < opts.maxConcurrency)
    (hexec : ∀ i a, ∃ v, exec i a = Except.ok v) :
    ∀ fuel fuel' placed s, fuel ≤ fuel' →
      SyncInv nodes opts placed s →
      (kahnLoop nodes fuel placed).length = nodes.length →
      (drive exec fuel' s).tasks.length = nodes.length ∧
        ∀ j, j < nodes.length →
          (taskAt (drive exec fuel' s) j).status = TaskStatus.COMPLETED := by
  intro fuel
  induction fuel with
  | zero =>
    intro fuel' placed s hle hinv hkahn
    rw [kahnLoop] at hkahn
    have hall := SyncInv_all_completed hinv hkahn
    rw [drive_stuck (pickReady_none_of_completed hinv.2.2.1 hall)]
    exact ⟨hinv.2.2.1, hall⟩
  | succ fuel ih =>
    intro fuel' placed s hle hinv hkahn
    rw [kahnLoop] at hkahn
    match hpick : kahnPick nodes placed with
    | none =>
      rw [hpick] at hkahn
      have hall := SyncInv_all_completed hinv hkahn
      rw [drive_stuck (pickReady_none_of_completed hinv.2.2.1 hall)]
      exact ⟨hinv.2.2.1, hall⟩
    | some p =>
      rw [hpick] at hkahn
      obtain ⟨hnodes, hopts, hlen, hnd, hbnd, hcomp, hpend⟩ := hinv
      have hpr : pickReady s = some p := by
        rw [SyncInv_pick ⟨hnodes, hopts, hlen, hnd, hbnd, hcomp, hpend⟩
          hrefs hmax]
        exact hpick
      have hcanp : canStart s p = true := by
        have := List.find?_some hpr
        exact this
      have hpn : p < nodes.length := by
        have := List.mem_of_find?_eq_some hpr
        rw [List.mem_range, hlen] at this
        exact this
      have hpnotin : p ∉ placed := by
        have hpred := List.find?_some hpick
        simp only [Bool.and_eq_true, Bool.not_eq_true'] at hpred
        intro hc
        have h2 : placed.contains p = true := List.elem_iff.mpr hc
        rw [hpred.1] at h2
        exact Bool.false_ne_true h2
      obtain ⟨s1, hs1⟩ : ∃ x, startTask s p = some x := by
        rw [startTask, if_pos hcanp]
        exact ⟨_, rfl⟩
      obtain ⟨v, hv⟩ := hexec p ((taskAt s p).attempts + 1)
      have hst1 : (taskAt s1 p).status = TaskStatus.RUNNING := by
        rw [startTask_at_self hs1]
      have hlen1 : p < s1.tasks.length := by
        rw [startTask_len hs1, hlen]
        exact hpn
      have hguard : ((taskAt s1 p).status == TaskStatus.RUNNING &&
          decide (p < s1.tasks.length)) = true := by
        rw [hst1]
        simp [hlen1]
      obtain ⟨s2, hs2⟩ : ∃ x, completeTask s1 p v = some x := by
        rw [completeTask, if_pos hguard]
        exact ⟨_, rfl⟩
      have hds : driveStep exec s p = some s2 := by
        rw [driveStep, hs1, hv]
        exact hs2
      match fuel', hle with
      | fuel2 + 1, hle =>
        have hunfold : drive exec (fuel2 + 1) s = drive exec fuel2 s2 := by
          rw [drive]
          simp only [hpr, hds]
        rw [hunfold]
        refine ih fuel2 (placed ++ [p]) s2 (by omega) ?_ hkahn
        refine ⟨?_, ?_, ?_, ?_, ?_, ?_, ?_⟩
        · rw [completeTask_nodes hs2, startTask_nodes hs1, hnodes]
        · rw [completeTask_opts hs2, startTask_opts hs1, hopts]
        · rw [completeTask_len hs2, startTask_len hs1, hlen]
        · simp [List.nodup_append, hnd, hpnotin]
        · intro x hx
          rcases List.mem_append.mp hx with hx | hx
          · exact hbnd x hx
          · rw [List.mem_singleton] at hx
            rw [hx]
            exact hpn
        · intro j hj
          rcases List.mem_append.mp hj with hj | hj
          · have hjp : p ≠ j := fun hc => hpnotin (hc ▸ hj)
            rw [completeTask_at_other hs2 hjp, startTask_at_other hs1 hjp]
            exact hcomp j hj
          · rw [List.mem_singleton] at hj
            rw [hj, completeTask_at_self hs2]
        · intro j hjn hj
          rw [List.mem_append, List.mem_singleton] at hj
          push_neg at hj
          have hjp : p ≠ j := fun hc => hj.2 hc.symm
          rw [completeTask_at_other hs2 hjp, startTask_at_other hs1 hjp]
          exact hpend j hjn hj.1

theorem driveFuel_ge (nodes : List TaskNode) :
    nodes.length ≤ driveFuel nodes := by
  induction nodes with
  | nil => simp [driveFuel]
  | cons nd nodes ih =>
    simp only [driveFuel, List.map_cons, List.sum_cons] at ih ⊢
    simp only [List.length_cons]
    omega

/-- C3: `submitAndWait` (the synchronous `ct.dispatch_sync` path) returns
only after the run has been driven to quiescence — the model of blocking
the caller until the aggregate status is terminal — and hands back the full
DispatchRecord; when the executor succeeds on every call, the record's
status is the terminal COMPLETED and it carries the run's start and end
timestamps. -/
theorem submitAndWait_success (reg : Registry) (nodes : List TaskNode)
    (opts : RunOptions) (exec : Nat → Nat → Except String Nat) (g : Graph)
    (hb : build nodes = Except.ok g)
    (hmax : 0 < opts.maxConcurrency)
    (hexec : ∀ i a, ∃ v, exec i a = Except.ok v) :
    ∃ rec, (submitAndWait reg nodes opts exec).2 = Except.ok rec ∧
      rec.status = WorkflowStatus.COMPLETED ∧
      rec.startTime = 0 ∧
      ∃ tEnd, rec.endTime = some tEnd ∧ rec.startTime ≤ tEnd := by
  obtain ⟨hrefs, hgn, htopo⟩ := build_ok hb
  have hinv0 : SyncInv nodes opts [] (initRun nodes opts) := by
    refine ⟨rfl, rfl, by simp [initRun], List.nodup_nil, by simp, by simp, ?_⟩
    intro j hj hnot
    rw [taskAt, show (initRun nodes opts).tasks =
      List.replicate nodes.length initTask from rfl, getTask_replicate]
    rfl
  obtain ⟨hlenF, hallF⟩ := drive_completes nodes opts exec hrefs hmax hexec
    nodes.length (driveFuel nodes) [] (initRun nodes opts)
    (driveFuel_ge nodes) hinv0 htopo
  have hagg : aggregateStatus
      (drive exec (driveFuel nodes) (initRun nodes opts)) =
      WorkflowStatus.COMPLETED := by
    rw [aggregate_completed_iff]
    intro t ht
    obtain ⟨⟨j, hj⟩, rfl⟩ := List.mem_iff_get.mp ht
    rw [← getTask_lt hj]
    exact hallF j (by omega)
  rw [submitAndWait]
  simp only [hb, hgn]
  exact ⟨_, rfl, hagg, rfl, _, rfl, Nat.zero_le _⟩

/-- Closed instance of C3: the diamond graph (task 3 depends on tasks 1
and 2, which both depend on task 0) dispatched synchronously with an
always-succeeding executor under `maxConcurrency = 2`. -/
theorem submitAndWait_success_witness :
    ∃ rec, (submitAndWait ⟨[], 0⟩
        [⟨[], 1⟩, ⟨[0], 1⟩, ⟨[0], 1⟩, ⟨[1, 2], 1⟩] ⟨2⟩
        (fun j a => Except.ok 5)).2 = Except.ok rec ∧
      rec.status = WorkflowStatus.COMPLETED ∧
      rec.startTime = 0 ∧
      ∃ tEnd, rec.endTime = some tEnd ∧ rec.startTime ≤ tEnd :=
  submitAndWait_success ⟨[], 0⟩ [⟨[], 1⟩, ⟨[0], 1⟩, ⟨[0], 1⟩, ⟨[1, 2], 1⟩]
    ⟨2⟩ (fun j a => Except.ok 5)
    ⟨[⟨[], 1⟩, ⟨[0], 1⟩, ⟨[0], 1⟩, ⟨[1, 2], 1⟩], [0, 1, 2, 3]⟩
    (by rfl) (by decide) (fun j a => ⟨5, rfl⟩)

end Covalent
